import Mathlib

/-!
Shallow embedding of HHVM's polymorphic array-representation layer:
`hphp/runtime/base/array-data.h`, `hphp/runtime/base/array-data-inl.h` and
`hphp/runtime/base/bespoke/layout.h`.

Machine integers are modelled as `Nat` with explicit bitwise operations;
the kind tag is modelled as the enumeration of the ten declared valid
values (the sentinel `kNumKinds` is excluded: `kindIsValid()` is a
precondition of every accessor below, per `ArrayData::kind()`).
-/

namespace HhvmArray

/-- The `ArrayData::ArrayKind` enumeration from array-data.h, in declared
order. `kNumKinds` is the number of declared kinds, not itself a valid
kind. -/
inductive ArrayKind where
  | kMixedKind
  | kBespokeDArrayKind
  | kPackedKind
  | kBespokeVArrayKind
  | kDictKind
  | kBespokeDictKind
  | kVecKind
  | kBespokeVecKind
  | kKeysetKind
  | kBespokeKeysetKind
  deriving DecidableEq, Fintype, Repr

/-- Numeric value of each kind, following the declaration order: the enum
assigns consecutive values from 0. -/
def ArrayKind.toNat : ArrayKind → Nat
  | .kMixedKind => 0
  | .kBespokeDArrayKind => 1
  | .kPackedKind => 2
  | .kBespokeVArrayKind => 3
  | .kDictKind => 4
  | .kBespokeDictKind => 5
  | .kVecKind => 6
  | .kBespokeVecKind => 7
  | .kKeysetKind => 8
  | .kBespokeKeysetKind => 9

/-- `kNumKinds`: the count of declared kinds. -/
def kNumKinds : Nat := 10

/-- `kBespokeKindMask = uint8_t{0x01}`: the bit set for bespoke kinds. -/
def kBespokeKindMask : Nat := 0x01

/-- Aux-halfword flag `kHasApcTv = 1`. -/
def kHasApcTv : Nat := 1

/-- Aux-halfword flag `kLegacyArray = 2`. -/
def kLegacyArray : Nat := 2

/-- Aux-halfword flag `kHasStrKeyTable = 4`. -/
def kHasStrKeyTable : Nat := 4

/-- Aux-halfword flag `kSampledArray = 8`. -/
def kSampledArray : Nat := 8

/-- `ArrayData::isVanilla()`: `!(kind() & kBespokeKindMask)`. -/
def isVanilla (k : ArrayKind) : Bool :=
  k.toNat &&& kBespokeKindMask == 0

/-- `ArrayData::bothVanilla(ad1, ad2)`:
`!((ad1->kind() | ad2->kind()) & kBespokeKindMask)`. -/
def bothVanilla (k1 k2 : ArrayKind) : Bool :=
  (k1.toNat ||| k2.toNat) &&& kBespokeKindMask == 0

/-- `ArrayData::isVArray()`: `(kind() & ~kBespokeKindMask) == kPackedKind`.
`~kBespokeKindMask` on `uint8_t` is `0xFE`. -/
def isVArray (k : ArrayKind) : Bool :=
  k.toNat &&& 0xFE == ArrayKind.kPackedKind.toNat

/-- `ArrayData::isDArray()`: `kind() <= kBespokeDArrayKind`. -/
def isDArray (k : ArrayKind) : Bool :=
  k.toNat ≤ ArrayKind.kBespokeDArrayKind.toNat

/-- `ArrayData::isDVArray()`: `kind() <= kBespokeVArrayKind`. -/
def isDVArray (k : ArrayKind) : Bool :=
  k.toNat ≤ ArrayKind.kBespokeVArrayKind.toNat

/-- Spec-side classification of the bespoke kinds, by their declared names:
the four `kBespoke*Kind` values are bespoke, the rest are vanilla. This
definition follows the spec's words for comparison with the bit test
`isVanilla`. -/
def isBespokeByName (k : ArrayKind) : Bool :=
  match k with
  | .kBespokeDArrayKind | .kBespokeVArrayKind | .kBespokeDictKind
  | .kBespokeVecKind | .kBespokeKeysetKind => true
  | _ => false

/-- Spec-side classification of the four dvarray kinds by name, for
comparison with the range test `isDVArray`. -/
def isDVArrayByName (k : ArrayKind) : Bool :=
  match k with
  | .kMixedKind | .kBespokeDArrayKind | .kPackedKind
  | .kBespokeVArrayKind => true
  | _ => false

/-- `ArrayData::auxBits()`:
`safe_cast<uint8_t>(m_aux16 & (kLegacyArray | kSampledArray))`. The aux
halfword is modelled as an arbitrary `Nat`; the mask keeps the result
below 256, so the `safe_cast` is lossless. -/
def auxBits (aux : Nat) : Nat :=
  aux &&& (kLegacyArray ||| kSampledArray)

/-! ### Static singleton pool and empty-array factories

The immortal empty singletons are distinct global objects declared in
array-data.h (`s_theEmptyVec`, `s_theEmptyMarkedVec`, ...); each accessor
in array-data-inl.h returns the address of a fixed one of them, so two
calls with the same arguments return the identical instance. The
singletons are modelled as an enumeration of those global objects. -/

/-- The distinct immortal global objects of the static singleton pool,
one constructor per global declared in array-data.h. -/
inductive StaticSingleton where
  | theEmptyVec
  | theEmptyMarkedVec
  | theEmptyVArray
  | theEmptyMarkedVArray
  | theEmptyDictArray
  | theEmptyMarkedDictArray
  | theEmptyDArray
  | theEmptyMarkedDArray
  | theEmptySetArray
  deriving DecidableEq, Fintype, Repr

/-- Modelled from the spec: the initialization of the empty singletons
(in array-data.cpp, not part of the three headers under study) makes each
one an always-empty array, so `size()` reads 0 — "both report size 0",
"immortal, zero-refcount canonical instances for the always-empty case".
-/
def StaticSingleton.size : StaticSingleton → Nat := fun _ => 0

/-- `staticEmptyVec()`: returns `&s_theEmptyVec`. -/
def staticEmptyVec : StaticSingleton := .theEmptyVec

/-- `staticEmptyMarkedVec()`: returns `&s_theEmptyMarkedVec`. -/
def staticEmptyMarkedVec : StaticSingleton := .theEmptyMarkedVec

/-- `staticEmptyVArray()`: `RO::EvalHackArrDVArrs ? &s_theEmptyVec :
&s_theEmptyVArray`. The runtime option is passed as a parameter. -/
def staticEmptyVArray (hackArrDVArrs : Bool) : StaticSingleton :=
  if hackArrDVArrs then .theEmptyVec else .theEmptyVArray

/-- `staticEmptyMarkedVArray()`. -/
def staticEmptyMarkedVArray (hackArrDVArrs : Bool) : StaticSingleton :=
  if hackArrDVArrs then .theEmptyMarkedVec else .theEmptyMarkedVArray

/-- `staticEmptyDictArray()`. -/
def staticEmptyDictArray : StaticSingleton := .theEmptyDictArray

/-- `staticEmptyMarkedDictArray()`. -/
def staticEmptyMarkedDictArray : StaticSingleton := .theEmptyMarkedDictArray

/-- `staticEmptyDArray()`: `RO::EvalHackArrDVArrs ? s_theEmptyDictArrayPtr
: s_theEmptyDArrayPtr`. -/
def staticEmptyDArray (hackArrDVArrs : Bool) : StaticSingleton :=
  if hackArrDVArrs then .theEmptyDictArray else .theEmptyDArray

/-- `staticEmptyMarkedDArray()`. -/
def staticEmptyMarkedDArray (hackArrDVArrs : Bool) : StaticSingleton :=
  if hackArrDVArrs then .theEmptyMarkedDictArray else .theEmptyMarkedDArray

/-- Provenance tags (`arrprov::Tag`); only identity matters here. -/
structure Tag where
  id : Nat
  deriving DecidableEq, Repr

/-- An `ArrayData*` produced by the empty-array factories: either one of
the untagged canonical singletons, or a provenance-tagged (tracked)
instance produced by the tagging path. -/
inductive ArrayPtr where
  | canonical : StaticSingleton → ArrayPtr
  | tagged : StaticSingleton → Tag → ArrayPtr
  deriving DecidableEq, Repr

/-- Whether a factory result is a provenance-tagged (tracked) instance. -/
def ArrayPtr.isTagged : ArrayPtr → Bool
  | .canonical _ => false
  | .tagged _ _ => true

/-- Modelled from the spec: `arrprov::tagStaticArr` (array-provenance.h,
not among the files under study) — "accessing a canonical singleton
through a tagging path must clone into a tracked instance". -/
def tagStaticArr (ad : StaticSingleton) (tag : Tag) : ArrayPtr :=
  .tagged ad tag

/-- `ArrayData::CreateVec(bool legacy)`:
`legacy ? staticEmptyMarkedVec() : staticEmptyVec()`. -/
def CreateVec (legacy : Bool) : StaticSingleton :=
  if legacy then staticEmptyMarkedVec else staticEmptyVec

/-- `ArrayData::CreateDict(bool legacy)`. -/
def CreateDict (legacy : Bool) : StaticSingleton :=
  if legacy then staticEmptyMarkedDictArray else staticEmptyDictArray

/-- `ArrayData::CreateVArray(tag, legacy)`, with the two runtime options
`RO::EvalHackArrDVArrs` and `RO::EvalArrayProvenance` passed as
parameters. -/
def CreateVArray (hackArrDVArrs arrayProvenance : Bool) (tag : Tag)
    (legacy : Bool) : ArrayPtr :=
  if hackArrDVArrs then .canonical (CreateVec legacy)
  else if legacy then .canonical (staticEmptyMarkedVArray hackArrDVArrs)
  else if arrayProvenance then
    tagStaticArr (staticEmptyVArray hackArrDVArrs) tag
  else .canonical (staticEmptyVArray hackArrDVArrs)

/-- `ArrayData::CreateDArray(tag, legacy)`. -/
def CreateDArray (hackArrDVArrs arrayProvenance : Bool) (tag : Tag)
    (legacy : Bool) : ArrayPtr :=
  if hackArrDVArrs then .canonical (CreateDict legacy)
  else if legacy then .canonical (staticEmptyMarkedDArray hackArrDVArrs)
  else if arrayProvenance then
    tagStaticArr (staticEmptyDArray hackArrDVArrs) tag
  else .canonical (staticEmptyDArray hackArrDVArrs)

/-- Interned string handles; the embedding only needs their identity. -/
structure StringData where
  id : Nat
  deriving DecidableEq, Repr

/-- `ArrayData::IsValidKey(const StringData* k)`: `return k;` — the
pointer converted to bool, i.e. non-null. A possibly-null pointer is
modelled as `Option StringData`. -/
def IsValidKey (k : Option StringData) : Bool :=
  k.isSome

/-! ### Lifecycle and refcounting

`decRefAndRelease` and `release` are in array-data-inl.h; the refcount
primitives `decReleaseCheck` and `hasMultipleRefs` live in the
`MaybeCountable` base (countable.h, not among the files under study) and
are therefore modelled from the spec. -/

/-- Modelled from the spec: the RefCount states of §3 — *counted*
(standard shared ownership, a positive count) and *uncounted/static*
(immortal, never refcounted). `counted n` is a live handle with `n`
owners, `n ≥ 1`. `countable.h` is not among the files under study. -/
inductive RefCount where
  | counted : Nat → RefCount
  | uncounted
  deriving DecidableEq, Repr

/-- Modelled from the spec: `hasMultipleRefs()` — "marked-shared
(explicit more-than-one-reference signal)"; an outstanding shared
reference exists when the count exceeds one. A static handle is never a
unique owner, so it also reports multiple refs. -/
def hasMultipleRefs : RefCount → Bool
  | .counted n => 1 < n
  | .uncounted => true

/-- Modelled from the spec: `decReleaseCheck()` — "decrement; at the
last-owner threshold, invoke the kind's release"; returns true exactly
when the decrement observes the last owner. "Static/uncounted handles
never enter this protocol" (§4.2), so they decline release. The pair is
(release-now?, resulting refcount state). -/
def decReleaseCheck : RefCount → Bool × RefCount
  | .counted 1 => (true, .counted 0)
  | .counted (n + 2) => (false, .counted (n + 1))
  | .counted 0 => (false, .counted 0)
  | .uncounted => (false, .uncounted)

/-- `ArrayData::decRefAndRelease()`:
`if (decReleaseCheck()) release();`. The model returns whether `release`
was invoked along with the resulting refcount state; the body of
`release` itself is a dispatch-table call. -/
def decRefAndRelease (rc : RefCount) : Bool × RefCount :=
  decReleaseCheck rc

/-- The assertion at the head of `ArrayData::release()`:
`assertx(!hasMultipleRefs())`. True exactly when the precondition holds
and the assertion branch is unreachable. -/
def releaseAssertionHolds (rc : RefCount) : Bool :=
  !hasMultipleRefs rc

/-! ### Bespoke layout constants (bespoke/layout.h) -/

/-- `kLoggingLayoutByte = 0b1110`. -/
def kLoggingLayoutByte : Nat := 0b1110

/-- `kMonotypeVecLayoutByte = 0b1101`. -/
def kMonotypeVecLayoutByte : Nat := 0b1101

/-- `kEmptyMonotypeVecLayoutByte = 0b1100`. -/
def kEmptyMonotypeVecLayoutByte : Nat := 0b1100

/-- `kIntMonotypeDictLayoutByte = 0b1011`. -/
def kIntMonotypeDictLayoutByte : Nat := 0b1011

/-- `kStrMonotypeDictLayoutByte = 0b0111`. -/
def kStrMonotypeDictLayoutByte : Nat := 0b0111

/-- `kStaticStrMonotypeDictLayoutByte = 0b0110`. -/
def kStaticStrMonotypeDictLayoutByte : Nat := 0b0110

/-- `kEmptyMonotypeDictLayoutByte = 0b0010`. -/
def kEmptyMonotypeDictLayoutByte : Nat := 0b0010

/-- `kStructLayoutByte = 0b1111`. -/
def kStructLayoutByte : Nat := 0b1111

/-- `kMaxLayoutByte = kStructLayoutByte`. -/
def kMaxLayoutByte : Nat := kStructLayoutByte

/-- `Layout::kMaxIndex = {(1 << 15) - 1}`: the largest bespoke layout
index. -/
def kMaxIndex : Nat := (1 <<< 15) - 1

/-- Number of columns per operation in `LayoutFunctionsDispatch`: each
function-pointer array is declared with `kMaxLayoutByte + 1` entries. -/
def dispatchColumns : Nat := kMaxLayoutByte + 1

/-- The list of all declared family layout bytes. -/
def declaredLayoutBytes : List Nat :=
  [kLoggingLayoutByte, kMonotypeVecLayoutByte, kEmptyMonotypeVecLayoutByte,
   kIntMonotypeDictLayoutByte, kStrMonotypeDictLayoutByte,
   kStaticStrMonotypeDictLayoutByte, kEmptyMonotypeDictLayoutByte,
   kStructLayoutByte]

/-! ### The bespoke layout lattice

layout.h declares `FinalizeHierarchy`, `operator<=`, `operator|` and
`operator&`; their implementations (layout.cpp) are not among the files
under study, so the sealed hierarchy is modelled from the spec (§3
LayoutNode, §4.4): layouts are registered in construction order, which is
a topological sort with respect to parents; `a <= b` means `b` is in the
ancestor closure of `a`; join is a common ancestor of both arguments
(falling back to top when none exists); meet is a common descendant, or
bottom when the layouts are disjoint. -/

/-- Modelled from the spec: a sealed bespoke layout hierarchy. Layouts
are identified with their construction index `0, 1, ..., size - 1`;
index 0 is the universal top layout (constructed first). `parents i`
lists the parent edges declared at construction; `topo` is the spec's
invariant that construction order is a topological sort with respect to
parents, and `connected` that every non-top layout declares at least one
parent, so every layout is a descendant of top. -/
structure Hierarchy where
  size : Nat
  parents : Nat → List Nat
  topo : ∀ i p, p ∈ parents i → p < i
  connected : ∀ i, 0 < i → i < size → parents i ≠ []

/-- The ancestor closure of layout `i`: itself plus, transitively, its
parents — "derived ancestor/descendant closures" of §3, computed by
`FinalizeHierarchy`. -/
def ancestorList (H : Hierarchy) (i : Nat) : List Nat :=
  i :: (H.parents i).attach.flatMap (fun q =>
    match q with
    | ⟨p, hp⟩ => ancestorList H p)
termination_by i
decreasing_by exact H.topo i p hp


/-- `Layout::operator<=`: `a <= b` holds when `b` is in `a`'s ancestor
closure — `a` is a descendant of (refines) `b`. -/
def layoutLe (H : Hierarchy) (a b : Nat) : Bool :=
  decide (b ∈ ancestorList H a)

/-- The common ancestors of two layouts. -/
def commonUpper (H : Hierarchy) (a b : Nat) : List Nat :=
  (ancestorList H a).filter (fun x => decide (x ∈ ancestorList H b))

/-- Maximum of a list of naturals (0 on the empty list). -/
def maxOf (l : List Nat) : Nat := l.foldr max 0

/-- `Layout::operator|` (join): a common ancestor of the two layouts,
picked deterministically; on an empty set of common ancestors it falls
back to the top layout (index 0), as the spec requires. -/
def layoutJoin (H : Hierarchy) (a b : Nat) : Nat :=
  maxOf (commonUpper H a b)

/-- The common descendants of two layouts among the registered ones. -/
def commonLower (H : Hierarchy) (a b : Nat) : List Nat :=
  (List.range H.size).filter (fun j => layoutLe H j a && layoutLe H j b)

/-- `Layout::operator&` (meet): a common descendant of the two layouts,
picked deterministically, or bottom (`none`, the null layout) when they
are disjoint. -/
def layoutMeet (H : Hierarchy) (a b : Nat) : Option Nat :=
  if commonLower H a b = [] then none
  else some (maxOf (commonLower H a b))

/-- The order extended to the bottom element: the null layout (`none`)
is below every layout. -/
def layoutLeOpt (H : Hierarchy) : Option Nat → Nat → Bool
  | none, _ => true
  | some j, b => layoutLe H j b

/-- A small concrete sealed hierarchy used to exercise the lattice
operations: a top layout (index 0) with two registered children. -/
def demoHierarchy : Hierarchy where
  size := 3
  parents := fun i => if 0 < i ∧ i < 3 then [0] else []
  topo := by
    intro i p hp
    by_cases h : 0 < i ∧ i < 3
    · simp [h] at hp
      omega
    · simp [h] at hp
  connected := by
    intro i h1 h2
    simp [h1, h2]

/-- Unfolding equation for `ancestorList`. -/
theorem ancestorList_eq (H : Hierarchy) (i : Nat) :
    ancestorList H i = i :: (H.parents i).attach.flatMap (fun q =>
      match q with
      | ⟨p, _⟩ => ancestorList H p) := by
  rw [ancestorList]

/-- Membership in the ancestor closure, unfolded one step. -/
theorem mem_ancestorList (H : Hierarchy) {i j : Nat} :
    j ∈ ancestorList H i ↔
      j = i ∨ ∃ p, ∃ _ : p ∈ H.parents i, j ∈ ancestorList H p := by
  rw [ancestorList_eq]
  simp [List.mem_flatMap]

/-- Every layout is in its own ancestor closure. -/
theorem self_mem_ancestorList (H : Hierarchy) (i : Nat) :
    i ∈ ancestorList H i :=
  (mem_ancestorList H).2 (Or.inl rfl)

/-- An ancestor's construction index never exceeds the layout's own:
ancestors are constructed earlier. -/
theorem le_of_mem_ancestorList (H : Hierarchy) :
    ∀ i j, j ∈ ancestorList H i → j ≤ i := by
  intro i
  induction i using Nat.strong_induction_on with
  | _ i ih =>
    intro j hj
    rcases (mem_ancestorList H).1 hj with rfl | ⟨p, hp, hjp⟩
    · exact le_refl j
    · exact le_trans (ih p (H.topo i p hp) j hjp) (le_of_lt (H.topo i p hp))

/-- The ancestor closure of a parent is contained in the child's. -/
theorem ancestorList_parent_sub (H : Hierarchy) {i p : Nat}
    (hp : p ∈ H.parents i) :
    ∀ j, j ∈ ancestorList H p → j ∈ ancestorList H i := by
  intro j hj
  exact (mem_ancestorList H).2 (Or.inr ⟨p, hp, hj⟩)

/-- The ancestor relation is transitive. -/
theorem ancestorList_trans (H : Hierarchy) :
    ∀ i j k, j ∈ ancestorList H i → k ∈ ancestorList H j →
      k ∈ ancestorList H i := by
  intro i
  induction i using Nat.strong_induction_on with
  | _ i ih =>
    intro j k hj hk
    rcases (mem_ancestorList H).1 hj with rfl | ⟨p, hp, hjp⟩
    · exact hk
    · exact ancestorList_parent_sub H hp k
        (ih p (H.topo i p hp) j k hjp hk)

/-- The top layout (index 0) is an ancestor of every registered layout. -/
theorem zero_mem_ancestorList (H : Hierarchy) :
    ∀ i, i < H.size → 0 ∈ ancestorList H i := by
  intro i
  induction i using Nat.strong_induction_on with
  | _ i ih =>
    intro hi
    cases Nat.eq_zero_or_pos i with
    | inl h => exact h ▸ self_mem_ancestorList H 0
    | inr h =>
      obtain ⟨p, hp⟩ := List.exists_mem_of_ne_nil _ (H.connected i h hi)
      exact ancestorList_parent_sub H hp 0
        (ih p (H.topo i p hp) (lt_trans (H.topo i p hp) hi))

/-- A nonempty list of naturals contains its maximum. -/
theorem maxOf_mem : ∀ {l : List Nat}, l ≠ [] → maxOf l ∈ l := by
  intro l
  induction l with
  | nil => intro h; exact absurd rfl h
  | cons x t ih =>
    intro _
    cases t with
    | nil => simp [maxOf]
    | cons y t' =>
      have hx : maxOf (x :: y :: t') = max x (maxOf (y :: t')) := rfl
      rcases max_choice x (maxOf (y :: t')) with h | h
      · rw [hx, h]; exact List.mem_cons_self x _
      · rw [hx, h]
        exact List.mem_cons_of_mem x (ih (by simp))

/-- Every member of a list is bounded by its maximum. -/
theorem le_maxOf : ∀ {l : List Nat} {x : Nat}, x ∈ l → x ≤ maxOf l := by
  intro l
  induction l with
  | nil => intro x hx; cases hx
  | cons a t ih =>
    intro x hx
    have hx' : maxOf (a :: t) = max a (maxOf t) := rfl
    rcases List.mem_cons.1 hx with rfl | hmem
    · rw [hx']; exact Nat.le_max_left _ _
    · rw [hx']; exact le_trans (ih hmem) (Nat.le_max_right _ _)

/-- `maxOf` is monotone under list inclusion. -/
theorem maxOf_le_maxOf {l l' : List Nat} (h : ∀ x, x ∈ l → x ∈ l') :
    maxOf l ≤ maxOf l' := by
  rcases eq_or_ne l [] with rfl | hne
  · exact Nat.zero_le _
  · exact le_maxOf (h _ (maxOf_mem hne))

/-- Membership in the set of common ancestors. -/
theorem mem_commonUpper {H : Hierarchy} {a b x : Nat} :
    x ∈ commonUpper H a b ↔
      x ∈ ancestorList H a ∧ x ∈ ancestorList H b := by
  simp [commonUpper, List.mem_filter]

/-- Membership in the set of common descendants. -/
theorem mem_commonLower {H : Hierarchy} {a b j : Nat} :
    j ∈ commonLower H a b ↔
      j < H.size ∧ layoutLe H j a = true ∧ layoutLe H j b = true := by
  simp [commonLower, List.mem_filter, List.mem_range, Bool.and_eq_true]

/-! ### Claim theorems -/

/-- C1: two calls to `CreateVec` with the same legacy argument return the
identical immortal instance; `CreateVec(true)` returns an instance
distinct from `CreateVec(false)`; and both returned arrays report
`size() == 0`. -/
theorem c1_createVec_singletons :
    (∀ legacy : Bool, CreateVec legacy = CreateVec legacy)
    ∧ CreateVec false = CreateVec false
    ∧ CreateVec true ≠ CreateVec false
    ∧ (CreateVec false).size = 0
    ∧ (CreateVec true).size = 0 := by
  decide

/-- C2 counterexample: with provenance tracking active
(`EvalArrayProvenance = true`, `EvalHackArrDVArrs = false`), the call
`CreateVArray(tag, legacy = true)` reaches the canonical empty marked
singleton yet returns it untagged — the claim's "for every legacy flag
value" fails. -/
theorem c2_legacy_path_untagged :
    CreateVArray false true ⟨0⟩ true
      = ArrayPtr.canonical StaticSingleton.theEmptyMarkedVArray
    ∧ (CreateVArray false true ⟨0⟩ true).isTagged = false
    ∧ (CreateDArray false true ⟨0⟩ true).isTagged = false := by
  decide

/-- C2 (amended): with provenance tracking active and `EvalHackArrDVArrs`
off, `CreateVArray` and `CreateDArray` with `legacy = false` return the
tagged (tracked) instance produced by the tagging path, never the
untagged canonical singleton; with `legacy = true` (or with
`EvalHackArrDVArrs` on) the untagged canonical singleton is returned
directly. The final conjunct characterizes the tagging exactly. -/
theorem c2_provenance_tagging (tag : Tag) :
    CreateVArray false true tag false
      = tagStaticArr (staticEmptyVArray false) tag
    ∧ CreateDArray false true tag false
      = tagStaticArr (staticEmptyDArray false) tag
    ∧ (CreateVArray false true tag false).isTagged = true
    ∧ (CreateDArray false true tag false).isTagged = true
    ∧ (∀ hack legacy : Bool,
        (CreateVArray hack true tag legacy).isTagged = (!hack && !legacy))
    ∧ (∀ hack legacy : Bool,
        (CreateDArray hack true tag legacy).isTagged = (!hack && !legacy))
    := by
  refine ⟨rfl, rfl, rfl, rfl, ?_, ?_⟩ <;>
    (intro hack legacy; cases hack <;> cases legacy <;> rfl)

/-- C3: after the hierarchy is sealed, for all registered layouts `a` and
`b` the lattice laws hold: `a<=a`; `a<=b` and `b<=a` together exactly
when `a==b`; `a<=a|b` and `b<=a|b`; `a&b<=a` and `a&b<=b`; and join and
meet are commutative. -/
theorem c3_lattice_laws (H : Hierarchy) (a b : Nat)
    (ha : a < H.size) (hb : b < H.size) :
    layoutLe H a a = true
    ∧ ((layoutLe H a b = true ∧ layoutLe H b a = true) ↔ a = b)
    ∧ layoutLe H a (layoutJoin H a b) = true
    ∧ layoutLe H b (layoutJoin H a b) = true
    ∧ layoutLeOpt H (layoutMeet H a b) a = true
    ∧ layoutLeOpt H (layoutMeet H a b) b = true
    ∧ layoutJoin H a b = layoutJoin H b a
    ∧ layoutMeet H a b = layoutMeet H b a := by
  have h0a : (0 : Nat) ∈ ancestorList H a := zero_mem_ancestorList H a ha
  have h0b : (0 : Nat) ∈ ancestorList H b := zero_mem_ancestorList H b hb
  have h0cu : (0 : Nat) ∈ commonUpper H a b := mem_commonUpper.2 ⟨h0a, h0b⟩
  have hcune : commonUpper H a b ≠ [] := List.ne_nil_of_mem h0cu
  have hjmem : layoutJoin H a b ∈ commonUpper H a b := maxOf_mem hcune
  obtain ⟨hja, hjb⟩ := mem_commonUpper.1 hjmem
  have hswap : commonLower H a b = commonLower H b a := by
    unfold commonLower
    have hfn : (fun j => layoutLe H j a && layoutLe H j b)
        = (fun j => layoutLe H j b && layoutLe H j a) := by
      funext j
      exact Bool.and_comm _ _
    rw [hfn]
  refine ⟨?_, ?_, ?_, ?_, ?_, ?_, ?_, ?_⟩
  · simp only [layoutLe, decide_eq_true_eq]
    exact self_mem_ancestorList H a
  · constructor
    · rintro ⟨h1, h2⟩
      have hba : b ∈ ancestorList H a := of_decide_eq_true h1
      have hab : a ∈ ancestorList H b := of_decide_eq_true h2
      exact Nat.le_antisymm (le_of_mem_ancestorList H b a hab)
        (le_of_mem_ancestorList H a b hba)
    · rintro rfl
      constructor <;>
        (simp only [layoutLe, decide_eq_true_eq]
         exact self_mem_ancestorList H a)
  · simp only [layoutLe, decide_eq_true_eq]
    exact hja
  · simp only [layoutLe, decide_eq_true_eq]
    exact hjb
  · by_cases hcl : commonLower H a b = []
    · simp [layoutMeet, hcl, layoutLeOpt]
    · have hm : maxOf (commonLower H a b) ∈ commonLower H a b :=
        maxOf_mem hcl
      obtain ⟨_, hla, _⟩ := mem_commonLower.1 hm
      simp [layoutMeet, hcl, layoutLeOpt, hla]
  · by_cases hcl : commonLower H a b = []
    · simp [layoutMeet, hcl, layoutLeOpt]
    · have hm : maxOf (commonLower H a b) ∈ commonLower H a b :=
        maxOf_mem hcl
      obtain ⟨_, _, hlb⟩ := mem_commonLower.1 hm
      simp [layoutMeet, hcl, layoutLeOpt, hlb]
  · apply Nat.le_antisymm <;>
      (apply maxOf_le_maxOf
       intro x hx
       exact mem_commonUpper.2
         ⟨(mem_commonUpper.1 hx).2, (mem_commonUpper.1 hx).1⟩)
  · unfold layoutMeet
    rw [hswap]

/-- C3 witness: the lattice laws instantiated on the concrete sealed
hierarchy `demoHierarchy` at the registered layouts 1 and 2. -/
theorem c3_lattice_laws_w :
    1 < demoHierarchy.size ∧ 2 < demoHierarchy.size
    ∧ (layoutLe demoHierarchy 1 1 = true
    ∧ ((layoutLe demoHierarchy 1 2 = true
        ∧ layoutLe demoHierarchy 2 1 = true) ↔ 1 = 2)
    ∧ layoutLe demoHierarchy 1 (layoutJoin demoHierarchy 1 2) = true
    ∧ layoutLe demoHierarchy 2 (layoutJoin demoHierarchy 1 2) = true
    ∧ layoutLeOpt demoHierarchy (layoutMeet demoHierarchy 1 2) 1 = true
    ∧ layoutLeOpt demoHierarchy (layoutMeet demoHierarchy 1 2) 2 = true
    ∧ layoutJoin demoHierarchy 1 2 = layoutJoin demoHierarchy 2 1
    ∧ layoutMeet demoHierarchy 1 2 = layoutMeet demoHierarchy 2 1) :=
  ⟨by decide, by decide,
   c3_lattice_laws demoHierarchy 1 2 (by decide) (by decide)⟩

/-- C4: for every pair of valid kinds, the single OR-then-mask test
`bothVanilla` returns true exactly when both kinds pass `isVanilla`. -/
theorem c4_bothVanilla_iff :
    ∀ k1 k2 : ArrayKind,
      bothVanilla k1 k2 = true ↔
        (isVanilla k1 = true ∧ isVanilla k2 = true) := by
  decide

/-- C5: for every valid kind, the range comparison `isDVArray` (kind at
most `kBespokeVArrayKind`) holds exactly for the four dvarray kinds,
i.e. exactly when `isVArray` or `isDArray` holds. -/
theorem c5_isDVArray_range :
    ∀ k : ArrayKind,
      (isDVArray k = true ↔ isDVArrayByName k = true)
      ∧ (isDVArray k = true ↔ (isVArray k = true ∨ isDArray k = true)) := by
  decide

/-- C6: for every declared kind, the single reserved low bit decides the
vanilla/bespoke distinction: `isVanilla` holds exactly when
`kind & kBespokeKindMask == 0`, and the bit test agrees with the by-name
classification of the ten declared kinds. -/
theorem c6_bespoke_bit :
    ∀ k : ArrayKind,
      (isVanilla k = true ↔ k.toNat &&& kBespokeKindMask = 0)
      ∧ isVanilla k = !isBespokeByName k
      ∧ (isBespokeByName k = true ↔ k.toNat &&& kBespokeKindMask = 1) := by
  decide

/-- C7: `decRefAndRelease` invokes `release` exactly when
`decReleaseCheck` observes the last-owner threshold (a counted handle
with exactly one reference), and in that case the post-decrement state
satisfies the `release` precondition `!hasMultipleRefs()`, so the
assertion branch in `release` is unreachable. -/
theorem c7_release_precondition (rc : RefCount)
    (h : (decRefAndRelease rc).1 = true) :
    releaseAssertionHolds (decRefAndRelease rc).2 = true
    ∧ rc = RefCount.counted 1 := by
  cases rc with
  | counted n =>
    match n with
    | 0 => exact Bool.noConfusion h
    | 1 => exact ⟨rfl, rfl⟩
    | n + 2 => exact Bool.noConfusion h
  | uncounted => exact Bool.noConfusion h

/-- C7 witness: a counted handle with exactly one reference takes the
release path, and the release precondition holds there. -/
theorem c7_release_precondition_w :
    (decRefAndRelease (RefCount.counted 1)).1 = true
    ∧ (releaseAssertionHolds (decRefAndRelease (RefCount.counted 1)).2 = true
       ∧ RefCount.counted 1 = RefCount.counted 1) :=
  ⟨by decide, c7_release_precondition (RefCount.counted 1) (by decide)⟩

/-- C8: every bespoke layout index fits in 15 bits (`kMaxIndex` is
`2^15 - 1`), every declared family layout byte is at most
`kMaxLayoutByte = 15`, and the per-family second-level dispatch table has
exactly `kMaxLayoutByte + 1 = 16` columns per operation. -/
theorem c8_layout_index_bounds :
    kMaxIndex = 2 ^ 15 - 1
    ∧ kMaxIndex < 2 ^ 15
    ∧ kMaxLayoutByte = 15
    ∧ dispatchColumns = 16
    ∧ (∀ byte ∈ declaredLayoutBytes, byte ≤ kMaxLayoutByte)
    ∧ declaredLayoutBytes.length ≤ 16 := by
  decide

/-- C9: `IsValidKey` on a string-key pointer returns true exactly when
the pointer is non-null. -/
theorem c9_isValidKey_nonnull :
    ∀ k : Option StringData, IsValidKey k = true ↔ k ≠ none := by
  intro k
  cases k <;> simp [IsValidKey]

/-- C10: `auxBits` is the aux halfword masked with exactly the
legacy-array and sampled-array flags; the has-apc-tv and
has-str-key-table bits are never among the preserved bits, and the
result fits a byte (the `safe_cast` is lossless). -/
theorem c10_auxBits_mask :
    ∀ aux : Nat,
      auxBits aux = aux &&& (kLegacyArray ||| kSampledArray)
      ∧ auxBits aux &&& kHasApcTv = 0
      ∧ auxBits aux &&& kHasStrKeyTable = 0
      ∧ auxBits aux ≤ kLegacyArray ||| kSampledArray := by
  intro aux
  refine ⟨rfl, ?_, ?_, Nat.and_le_right⟩
  · show aux &&& 10 &&& 1 = 0
    have h1 : (10 : Nat) &&& 1 = 0 := by decide
    rw [Nat.and_assoc, h1, Nat.and_zero]
  · show aux &&& 10 &&& 4 = 0
    have h4 : (10 : Nat) &&& 4 = 0 := by decide
    rw [Nat.and_assoc, h4, Nat.and_zero]

end HhvmArray
